import Mathlib

/-!
Shallow embedding of the page-processing core of WeLovePDF: the working-set
model shared by the merger and splitter components, the structural-copy build
(handleMerge / handleCreatePdf), and the rasterizing compress build
(handleCompress), together with theorems settling the specification claims.
-/

namespace WeLovePDF

/-- `PageInProcessing` from `src/src/types.ts`: one page slated for output,
with a back-reference to its source file and its 1-based original index. -/
structure PageInProcessing where
  id : String
  sourceFileId : String
  originalPageIndex : Nat
  deriving Repr, DecidableEq

/-- `LoadedPdfFile` from `src/src/types.ts`: an uploaded file that parsed
successfully.  The `File` object is represented by its name (the only part
of it the core logic reads besides the raw bytes, which are modelled by the
parsed document in the registry). -/
structure LoadedPdfFile where
  id : String
  name : String
  pageCount : Nat
  deriving Repr, DecidableEq

/-- `handleDrop` in the merger (src/unnamed/part_000): a drag-and-drop
reorder.  JS `splice(dragIdx, 1)` removes the dragged element, then
`splice(dropIdx, 0, x)` reinserts it into the already-shortened array,
with an insertion position past the end clamped to the end (hence the
`min`).  A drag index out of range cannot arise: both indices come from the
positions of rendered page cells. -/
def handleDrop (l : List α) (dragIdx dropIdx : Nat) : List α :=
  match l.get? dragIdx with
  | none => l
  | some x =>
      let shortened := l.eraseIdx dragIdx
      shortened.insertIdx (min dropIdx shortened.length) x

/-- `removePage` in the merger (src/unnamed/part_000): keep every page whose
id differs from the removed one. -/
def removePage (pages : List PageInProcessing) (pid : String) : List PageInProcessing :=
  pages.filter (fun p => p.id ≠ pid)

/-- C3: `handleDrop` moves the element at `dragIdx` to position
`min dropIdx (l.length - 1)` (the drop position clamped into the shortened
sequence), the length is preserved, and erasing the moved element from the
result recovers exactly the other elements in their original relative order
(stable reorder). -/
theorem moveTo_spec (l : List α) (i j : Nat) (h : i < l.length) :
    (handleDrop l i j).length = l.length ∧
    (handleDrop l i j).get? (min j (l.length - 1)) = l.get? i ∧
    (handleDrop l i j).eraseIdx (min j (l.length - 1)) = l.eraseIdx i := by
  have hg : l.get? i = some (l.get ⟨i, h⟩) := List.get?_eq_get h
  have hlen : (l.eraseIdx i).length = l.length - 1 := by
    rw [List.length_eraseIdx l i, if_pos h]
  have hmin : min j (l.eraseIdx i).length = min j (l.length - 1) := by rw [hlen]
  have hle : min j (l.length - 1) ≤ (l.eraseIdx i).length := by
    rw [hlen]; exact Nat.min_le_right _ _
  simp only [handleDrop, hg, hmin]
  refine ⟨?_, ?_, ?_⟩
  · rw [List.length_insertIdx _ _ hle, hlen]
    omega
  · have hlt : min j (l.length - 1) <
        ((l.eraseIdx i).insertIdx (min j (l.length - 1)) (l.get ⟨i, h⟩)).length := by
      rw [List.length_insertIdx _ _ hle, hlen]; omega
    rw [List.get?_eq_get hlt]
    congr 1
    exact List.get_insertIdx_self _ _ _ hle
  · exact List.eraseIdx_insertIdx _ _

/-- Witness for C3 on a concrete input. -/
theorem moveTo_spec_witness :
    (handleDrop [10, 20, 30, 40] 1 3).length = 4 ∧
    (handleDrop [10, 20, 30, 40] 1 3).get? (min 3 3) = [10, 20, 30, 40].get? 1 ∧
    (handleDrop [10, 20, 30, 40] 1 3).eraseIdx (min 3 3) = [10, 20, 30, 40].eraseIdx 1 :=
  moveTo_spec [10, 20, 30, 40] 1 3 (by decide)

/-- C8: `removePage` is idempotent and total: removing the same id twice
yields the same working set as removing it once, and removing an id that is
absent leaves the working set unchanged (a no-op, never an error). -/
theorem removePage_spec (pages : List PageInProcessing) (pid : String) :
    removePage (removePage pages pid) pid = removePage pages pid ∧
    (pid ∉ pages.map PageInProcessing.id → removePage pages pid = pages) := by
  constructor
  · rw [removePage, List.filter_eq_self]
    intro p hp
    simp only [removePage, List.mem_filter] at hp
    exact hp.2
  · intro habs
    rw [removePage, List.filter_eq_self]
    intro p hp
    simp only [decide_eq_true_eq]
    intro hclash
    exact habs (hclash ▸ List.mem_map_of_mem PageInProcessing.id hp)

/-- Witness for C8: the absence hypothesis discharged on a concrete working
set. -/
theorem removePage_spec_witness :
    ("z" ∉ [PageInProcessing.mk "a" "A" 1].map PageInProcessing.id) ∧
    removePage [PageInProcessing.mk "a" "A" 1] "z" = [PageInProcessing.mk "a" "A" 1] ∧
    removePage (removePage [PageInProcessing.mk "a" "A" 1] "z") "z" =
      removePage [PageInProcessing.mk "a" "A" 1] "z" :=
  ⟨by decide,
   (removePage_spec [PageInProcessing.mk "a" "A" 1] "z").2 (by decide),
   (removePage_spec [PageInProcessing.mk "a" "A" 1] "z").1⟩

/-! ## Structural-copy build: `handleMerge` (src/unnamed/part_000) and
`handleCreatePdf` (splitter in src/components/PdfCompressor.tsx) -/

/-- A parsed PDF document: the result of `PDFDocument.load` on a file's
bytes.  Page content is abstract (`π`); the structural copy moves pages
opaquely. -/
structure SourceDoc (π : Type) where
  pages : List π
  deriving Repr, DecidableEq

/-- Failure modes of the copy builds.  `emptyInput` is the early-return
guard message; `copyError` is the generic catch-all raised when pdf-lib
`copyPages` is given an out-of-range index. -/
inductive MergeError where
  | emptyInput
  | copyError
  deriving Repr, DecidableEq

/-- JS keyed lookup (`sourcePdfs[key]`, `loadedFiles.find(f => f.id === k)`)
over an association list. -/
def alookup (l : List (String × β)) (k : String) : Option β :=
  match l with
  | [] => none
  | (k₁, v) :: rest => if k₁ = k then some v else alookup rest k

variable {π : Type}

/-- The page a `PageInProcessing` denotes: resolve its source document in
the registry of loaded files, then take the page at its (1-based) original
index. -/
def expectedPage (registry : List (String × SourceDoc π)) (p : PageInProcessing) :
    Option π :=
  (alookup registry p.sourceFileId).bind (fun d => d.pages[p.originalPageIndex - 1]?)

/-- Mutable state of the `handleMerge` loop: the `sourcePdfs` cache, the
pages added to `mergedPdf` so far, and the trace of sources whose raw bytes
were parsed (`await PDFDocument.load(sourceBytes)` events), in order. -/
structure MergeState (π : Type) where
  cache : List (String × SourceDoc π)
  out : List π
  loads : List String
  deriving Repr, DecidableEq

/-- `copyPages(sourcePdf, [page.originalPageIndex - 1])` followed by
`mergedPdf.addPage`: appends the addressed page, or throws when the index
is out of range. -/
def copyInto (s : MergeState π) (doc : SourceDoc π) (page : PageInProcessing) :
    Except MergeError (MergeState π) :=
  match doc.pages[page.originalPageIndex - 1]? with
  | some pg => .ok { s with out := s.out ++ [pg] }
  | none => .error .copyError

/-- One iteration of the `handleMerge` loop.  The JS body first fills the
cache on a miss when the source file is found, then re-reads the cache and
copies if an entry is present, silently skipping the page otherwise; the
two object lookups are collapsed into one match. -/
def mergeStep (registry : List (String × SourceDoc π)) (s : MergeState π)
    (page : PageInProcessing) : Except MergeError (MergeState π) :=
  match alookup s.cache page.sourceFileId with
  | some doc => copyInto s doc page
  | none =>
      match alookup registry page.sourceFileId with
      | some doc =>
          copyInto { s with cache := (page.sourceFileId, doc) :: s.cache,
                            loads := s.loads ++ [page.sourceFileId] } doc page
      | none => .ok s

/-- The `handleMerge` page loop, from the empty output document and empty
cache. -/
def mergeRun (registry : List (String × SourceDoc π)) (pages : List PageInProcessing) :
    Except MergeError (MergeState π) :=
  pages.foldlM (mergeStep registry) ⟨[], [], []⟩

/-- `handleMerge`: empty-set guard, then the copy loop, then serialization
(modelled as returning the built page list). -/
def handleMerge (registry : List (String × SourceDoc π)) (pages : List PageInProcessing) :
    Except MergeError (List π) :=
  if pages.length = 0 then .error .emptyInput
  else (mergeRun registry pages).map MergeState.out

/-- `handleCreatePdf` in the splitter: guard against an empty page list,
then copy all addressed pages of the single loaded source at once
(`copyPages(sourcePdf, pageIndicesToKeep)`) and append them in order. -/
def handleCreatePdf (source : SourceDoc π) (pages : List PageInProcessing) :
    Except MergeError (List π) :=
  if pages.length = 0 then .error .emptyInput
  else
    match (pages.map (fun p => p.originalPageIndex - 1)).mapM (fun i => source.pages[i]?) with
    | some out => .ok out
    | none => .error .copyError

/-- Every cache entry agrees with the registry: the cache is only ever
filled from successful registry lookups. -/
def CacheCoherent (registry cache : List (String × SourceDoc π)) : Prop :=
  ∀ k d, alookup cache k = some d → alookup registry k = some d

theorem cacheCoherent_nil (registry : List (String × SourceDoc π)) :
    CacheCoherent registry [] := by
  intro k d h
  simp [alookup] at h

theorem cacheCoherent_cons {registry cache : List (String × SourceDoc π)}
    {k₀ : String} {d₀ : SourceDoc π}
    (hreg : alookup registry k₀ = some d₀) (h : CacheCoherent registry cache) :
    CacheCoherent registry ((k₀, d₀) :: cache) := by
  intro k d hk
  rw [alookup] at hk
  split at hk
  · rename_i heq
    obtain rfl := Option.some_injective _ hk
    exact heq ▸ hreg
  · exact h k d hk

/-- Every page of the list whose source resolves also has its original
index in range. -/
def ValidPages (registry : List (String × SourceDoc π)) (pages : List PageInProcessing) : Prop :=
  ∀ p ∈ pages, (alookup registry p.sourceFileId).isSome →
    (expectedPage registry p).isSome

/-- The merge loop, from a coherent cache, succeeds and appends exactly the
resolvable pages (in order) to the output. -/
theorem mergeLoop_out (registry : List (String × SourceDoc π))
    (pages : List PageInProcessing) :
    ∀ s : MergeState π, CacheCoherent registry s.cache → ValidPages registry pages →
      ∃ s₂, pages.foldlM (mergeStep registry) s = .ok s₂ ∧
        s₂.out = s.out ++ pages.filterMap (expectedPage registry) ∧
        CacheCoherent registry s₂.cache := by
  induction pages with
  | nil => exact fun s hc _ => ⟨s, rfl, by simp, hc⟩
  | cons p rest ih =>
    intro s hc hv
    have hvr : ValidPages registry rest := fun q hq => hv q (List.mem_cons_of_mem _ hq)
    rw [List.foldlM_cons]
    cases hcache : alookup s.cache p.sourceFileId with
    | some doc =>
      have hreg : alookup registry p.sourceFileId = some doc := hc _ _ hcache
      have hexp : expectedPage registry p = doc.pages[p.originalPageIndex - 1]? := by
        simp [expectedPage, hreg]
      obtain ⟨pg, hpg⟩ := Option.isSome_iff_exists.mp
        (hexp ▸ hv p (List.mem_cons_self p rest) (by simp [hreg]))
      have hstep : mergeStep registry s p = .ok { s with out := s.out ++ [pg] } := by
        simp [mergeStep, hcache, copyInto, hpg]
      rw [hstep]
      obtain ⟨s₂, hfold, hout, hc₂⟩ := ih { s with out := s.out ++ [pg] } hc hvr
      refine ⟨s₂, by simpa using hfold, ?_, hc₂⟩
      rw [hout]
      simp [List.filterMap_cons, hexp, hpg]
    | none =>
      cases hreg : alookup registry p.sourceFileId with
      | some doc =>
        have hexp : expectedPage registry p = doc.pages[p.originalPageIndex - 1]? := by
          simp [expectedPage, hreg]
        obtain ⟨pg, hpg⟩ := Option.isSome_iff_exists.mp
          (hexp ▸ hv p (List.mem_cons_self p rest) (by simp [hreg]))
        have hstep : mergeStep registry s p =
            .ok { s with cache := (p.sourceFileId, doc) :: s.cache,
                         loads := s.loads ++ [p.sourceFileId],
                         out := s.out ++ [pg] } := by
          simp [mergeStep, hcache, hreg, copyInto, hpg]
        rw [hstep]
        obtain ⟨s₂, hfold, hout, hc₂⟩ :=
          ih { s with cache := (p.sourceFileId, doc) :: s.cache,
                      loads := s.loads ++ [p.sourceFileId],
                      out := s.out ++ [pg] } (cacheCoherent_cons hreg hc) hvr
        refine ⟨s₂, by simpa using hfold, ?_, hc₂⟩
        rw [hout]
        simp [List.filterMap_cons, hexp, hpg]
      | none =>
        have hexp : expectedPage registry p = none := by
          simp [expectedPage, hreg]
        have hstep : mergeStep registry s p = .ok s := by
          simp [mergeStep, hcache, hreg]
        rw [hstep]
        obtain ⟨s₂, hfold, hout, hc₂⟩ := ih s hc hvr
        refine ⟨s₂, by simpa using hfold, ?_, hc₂⟩
        rw [hout]
        simp [List.filterMap_cons, hexp]

/-- A `filterMap` by a function that succeeds on every element preserves
length and computes positionally. -/
theorem filterMap_isSome_spec {α β : Type} (f : α → Option β) :
    ∀ l : List α, (∀ a ∈ l, (f a).isSome) →
      (l.filterMap f).length = l.length ∧
      ∀ i : Nat, (l.filterMap f)[i]? = l[i]?.bind f := by
  intro l
  induction l with
  | nil => exact fun _ => ⟨rfl, fun i => by simp⟩
  | cons a l ih =>
    intro h
    obtain ⟨b, hb⟩ := Option.isSome_iff_exists.mp (h a (List.mem_cons_self a l))
    obtain ⟨hlen, hget⟩ := ih (fun x hx => h x (List.mem_cons_of_mem _ hx))
    refine ⟨by simp [List.filterMap_cons, hb, hlen], ?_⟩
    intro i
    cases i with
    | zero => simp [List.filterMap_cons, hb]
    | succ n => simp [List.filterMap_cons, hb, hget n]

/-- An Option-valued `mapM` over a list where every element maps to `some`
succeeds and agrees with `filterMap`. -/
theorem mapM_option_isSome {α β : Type} (f : α → Option β) :
    ∀ l : List α, (∀ a ∈ l, (f a).isSome) → l.mapM f = some (l.filterMap f) := by
  intro l
  induction l with
  | nil => exact fun _ => rfl
  | cons a l ih =>
    intro h
    obtain ⟨b, hb⟩ := Option.isSome_iff_exists.mp (h a (List.mem_cons_self a l))
    rw [List.mapM_cons, hb, ih (fun x hx => h x (List.mem_cons_of_mem _ hx))]
    simp [List.filterMap_cons, hb]

theorem except_bind_ok {ε α β : Type} (x : Except ε α) (f : α → Except ε β) (c : β) :
    x >>= f = .ok c ↔ ∃ a, x = .ok a ∧ f a = .ok c := by
  cases x <;> simp [Bind.bind, Except.bind]

theorem alookup_cons_isSome {β : Type} (k₀ k : String) (v : β) (c : List (String × β)) :
    (alookup ((k₀, v) :: c) k).isSome ↔ (k₀ = k ∨ (alookup c k).isSome = true) := by
  rw [alookup]
  split <;> simp_all

/-- Loop invariant of `handleMerge` relating the parse trace to the cache:
parses are distinct, each parsed source resolves in the registry, and the
cache holds exactly the parsed sources. -/
def MergeInv (registry : List (String × SourceDoc π)) (s : MergeState π) : Prop :=
  s.loads.Nodup ∧
  (∀ k ∈ s.loads, (alookup registry k).isSome) ∧
  (∀ k : String, (alookup s.cache k).isSome ↔ k ∈ s.loads)

/-- Through the merge loop, the parse trace stays duplicate-free, only grows
by sources referenced by the processed pages, and ends up covering every
resolvable referenced source. -/
theorem mergeLoop_loads (registry : List (String × SourceDoc π)) :
    ∀ (pages : List PageInProcessing) (s s₂ : MergeState π),
      MergeInv registry s →
      pages.foldlM (mergeStep registry) s = .ok s₂ →
      MergeInv registry s₂ ∧
      (∀ k ∈ s.loads, k ∈ s₂.loads) ∧
      (∀ k ∈ s₂.loads, k ∈ s.loads ∨ k ∈ pages.map PageInProcessing.sourceFileId) ∧
      (∀ p ∈ pages, (alookup registry p.sourceFileId).isSome → p.sourceFileId ∈ s₂.loads) := by
  intro pages
  induction pages with
  | nil =>
    intro s s₂ hinv hfold
    rw [List.foldlM_nil] at hfold
    obtain rfl : s = s₂ := by simpa [pure, Except.pure] using hfold
    exact ⟨hinv, fun k hk => hk, fun k hk => Or.inl hk, by simp⟩
  | cons p rest ih =>
    intro s s₂ hinv hfold
    rw [List.foldlM_cons, except_bind_ok] at hfold
    obtain ⟨sMid, hstep, hrest⟩ := hfold
    cases hcache : alookup s.cache p.sourceFileId with
    | some doc =>
      cases hpg : doc.pages[p.originalPageIndex - 1]? with
      | some pg =>
        rw [show mergeStep registry s p = .ok { s with out := s.out ++ [pg] } by
              simp [mergeStep, hcache, copyInto, hpg]] at hstep
        injection hstep with hstep
        subst hstep
        obtain ⟨hinv₂, hmono, hgrow, hcover⟩ :=
          ih { s with out := s.out ++ [pg] } s₂ hinv hrest
        refine ⟨hinv₂, hmono, ?_, ?_⟩
        · intro k hk
          rcases hgrow k hk with hold | hnew
          · exact Or.inl hold
          · exact Or.inr (by simp [hnew])
        · intro q hq hres
          rcases List.mem_cons.mp hq with rfl | hq
          · exact hmono _ ((hinv.2.2 q.sourceFileId).mp (by simp [hcache]))
          · exact hcover q hq hres
      | none =>
        rw [show mergeStep registry s p = .error .copyError by
              simp [mergeStep, hcache, copyInto, hpg]] at hstep
        exact absurd hstep (by simp)
    | none =>
      cases hreg : alookup registry p.sourceFileId with
      | some doc =>
        cases hpg : doc.pages[p.originalPageIndex - 1]? with
        | some pg =>
          have hnotin : p.sourceFileId ∉ s.loads := by
            intro hmem
            have := (hinv.2.2 p.sourceFileId).mpr hmem
            simp [hcache] at this
          rw [show mergeStep registry s p =
                .ok { s with cache := (p.sourceFileId, doc) :: s.cache,
                             loads := s.loads ++ [p.sourceFileId],
                             out := s.out ++ [pg] } by
                simp [mergeStep, hcache, hreg, copyInto, hpg]] at hstep
          injection hstep with hstep
          subst hstep
          have hinvMid : MergeInv registry
              { s with cache := (p.sourceFileId, doc) :: s.cache,
                       loads := s.loads ++ [p.sourceFileId],
                       out := s.out ++ [pg] } := by
            refine ⟨?_, ?_, ?_⟩
            · simp [List.nodup_append, hinv.1, hnotin]
            · intro k hk
              rcases List.mem_append.mp hk with hold | hnew
              · exact hinv.2.1 k hold
              · simp only [List.mem_singleton] at hnew
                exact hnew ▸ (by simp [hreg])
            · intro k
              show (alookup ((p.sourceFileId, doc) :: s.cache) k).isSome ↔
                k ∈ s.loads ++ [p.sourceFileId]
              rw [alookup_cons_isSome]
              simp only [List.mem_append, List.mem_singleton]
              constructor
              · rintro (rfl | hc)
                · exact Or.inr rfl
                · exact Or.inl ((hinv.2.2 k).mp hc)
              · rintro (hl | rfl)
                · exact Or.inr ((hinv.2.2 k).mpr hl)
                · exact Or.inl rfl
          obtain ⟨hinv₂, hmono, hgrow, hcover⟩ := ih _ s₂ hinvMid hrest
          refine ⟨hinv₂, ?_, ?_, ?_⟩
          · intro k hk
            exact hmono k (by simp [hk])
          · intro k hk
            rcases hgrow k hk with hold | hnew
            · rcases List.mem_append.mp hold with h₁ | h₂
              · exact Or.inl h₁
              · simp only [List.mem_singleton] at h₂
                exact Or.inr (by simp [h₂])
            · exact Or.inr (by simp [hnew])
          · intro q hq hres
            rcases List.mem_cons.mp hq with rfl | hq
            · exact hmono _ (by simp)
            · exact hcover q hq hres
        | none =>
          rw [show mergeStep registry s p = .error .copyError by
                simp [mergeStep, hcache, hreg, copyInto, hpg]] at hstep
          exact absurd hstep (by simp)
      | none =>
        rw [show mergeStep registry s p = .ok s by
              simp [mergeStep, hcache, hreg]] at hstep
        injection hstep with hstep
        subst hstep
        obtain ⟨hinv₂, hmono, hgrow, hcover⟩ := ih _ s₂ hinv hrest
        refine ⟨hinv₂, hmono, ?_, ?_⟩
        · intro k hk
          rcases hgrow k hk with hold | hnew
          · exact Or.inl hold
          · exact Or.inr (by simp [hnew])
        · intro q hq hres
          rcases List.mem_cons.mp hq with rfl | hq
          · rw [hreg] at hres
            simp at hres
          · exact hcover q hq hres

/-- C1: for every non-empty working set whose PageRefs all resolve (with
in-range original indices), the structural-copy builds succeed and return
exactly one output page per PageRef, in working-set order, the i-th output
page being the page at the i-th PageRef's original index in its source:
`handleMerge` against the registry, and `handleCreatePdf` against the
single loaded source. -/
theorem buildByCopy_spec (registry : List (String × SourceDoc π))
    (source : SourceDoc π) (pages : List PageInProcessing)
    (hne : pages ≠ [])
    (hres : ∀ p ∈ pages, (expectedPage registry p).isSome)
    (hsrc : ∀ p ∈ pages, (source.pages[p.originalPageIndex - 1]?).isSome) :
    (∃ out, handleMerge registry pages = .ok out ∧ out.length = pages.length ∧
      ∀ i : Nat, out[i]? = pages[i]?.bind (expectedPage registry)) ∧
    (∃ out, handleCreatePdf source pages = .ok out ∧ out.length = pages.length ∧
      ∀ i : Nat, out[i]? = pages[i]?.bind
        (fun p => source.pages[p.originalPageIndex - 1]?)) := by
  have hlen0 : ¬ pages.length = 0 := by simpa [List.length_eq_zero] using hne
  constructor
  · have hv : ValidPages registry pages := fun p hp _ => hres p hp
    obtain ⟨s₂, hfold, hout, _⟩ :=
      mergeLoop_out registry pages ⟨[], [], []⟩ (cacheCoherent_nil registry) hv
    obtain ⟨hL, hG⟩ := filterMap_isSome_spec (expectedPage registry) pages hres
    have hout2 : s₂.out = pages.filterMap (expectedPage registry) := by simpa using hout
    refine ⟨pages.filterMap (expectedPage registry), ?_, hL, hG⟩
    rw [handleMerge, if_neg hlen0, mergeRun, hfold]
    exact congrArg Except.ok hout2
  · obtain ⟨hL, hG⟩ := filterMap_isSome_spec
      (fun p => source.pages[p.originalPageIndex - 1]?) pages hsrc
    have hmm := mapM_option_isSome (fun i => source.pages[i]?)
      (pages.map (fun p => p.originalPageIndex - 1))
      (by
        intro a ha
        obtain ⟨p, hp, rfl⟩ := List.mem_map.mp ha
        exact hsrc p hp)
    rw [List.filterMap_map] at hmm
    refine ⟨pages.filterMap (fun p => source.pages[p.originalPageIndex - 1]?), ?_, hL, hG⟩
    rw [handleCreatePdf, if_neg hlen0, hmm]
    rfl

/-- A two-source registry used to instantiate the build theorems. -/
def regA : List (String × SourceDoc String) := [("A", ⟨["a1", "a2"]⟩), ("B", ⟨["b1"]⟩)]

/-- A standalone two-page source for the split build. -/
def srcA : SourceDoc String := ⟨["s1", "s2"]⟩

/-- An interleaved working set touching source A twice and B once. -/
def pagesA : List PageInProcessing := [⟨"x", "A", 2⟩, ⟨"y", "B", 1⟩, ⟨"z", "A", 1⟩]

/-- Witness for C1: hypotheses discharged on the concrete interleaved
working set. -/
theorem buildByCopy_spec_witness :
    (pagesA ≠ [] ∧ (∀ p ∈ pagesA, (expectedPage regA p).isSome) ∧
      ∀ p ∈ pagesA, (srcA.pages[p.originalPageIndex - 1]?).isSome) ∧
    ((∃ out, handleMerge regA pagesA = .ok out ∧ out.length = pagesA.length ∧
        ∀ i : Nat, out[i]? = pagesA[i]?.bind (expectedPage regA)) ∧
     (∃ out, handleCreatePdf srcA pagesA = .ok out ∧ out.length = pagesA.length ∧
        ∀ i : Nat, out[i]? = pagesA[i]?.bind
          (fun p => srcA.pages[p.originalPageIndex - 1]?))) :=
  ⟨⟨by decide, by decide, by decide⟩,
   buildByCopy_spec regA srcA pagesA (by decide) (by decide) (by decide)⟩

/-- C4 counterexample: a working set whose only PageRef has no matching
source document does not make the build fail — `handleMerge` silently
skips the page and succeeds with an empty output document. -/
theorem unresolved_source_counterexample :
    handleMerge (π := String) [] [⟨"p1", "A", 1⟩] = .ok [] ∧
    ¬ ∃ e, handleMerge (π := String) [] [⟨"p1", "A", 1⟩] = .error e := by
  have h : handleMerge (π := String) [] [⟨"p1", "A", 1⟩] = .ok [] := rfl
  refine ⟨h, ?_⟩
  rintro ⟨e, he⟩
  rw [h] at he
  exact Except.noConfusion he

/-- C4 amended: a PageRef whose sourceId does not resolve is silently
skipped (it contributes no output page) and the build continues, returning
the pages of the resolvable PageRefs in working-set order. -/
theorem buildByCopy_skips_unresolved (registry : List (String × SourceDoc π))
    (pages : List PageInProcessing) (hne : pages ≠ [])
    (hval : ValidPages registry pages) :
    handleMerge registry pages = .ok (pages.filterMap (expectedPage registry)) ∧
    ∀ p ∈ pages, alookup registry p.sourceFileId = none → expectedPage registry p = none := by
  have hlen0 : ¬ pages.length = 0 := by simpa [List.length_eq_zero] using hne
  obtain ⟨s₂, hfold, hout, _⟩ :=
    mergeLoop_out registry pages ⟨[], [], []⟩ (cacheCoherent_nil registry) hval
  have hout2 : s₂.out = pages.filterMap (expectedPage registry) := by simpa using hout
  refine ⟨?_, ?_⟩
  · rw [handleMerge, if_neg hlen0, mergeRun, hfold]
    exact congrArg Except.ok hout2
  · intro p _ hnone
    simp [expectedPage, hnone]

/-- A working set with one resolvable PageRef and one dangling PageRef. -/
def pagesB : List PageInProcessing := [⟨"x", "A", 1⟩, ⟨"q", "C", 1⟩]

/-- Witness for the amended C4 on a working set with a dangling PageRef. -/
theorem buildByCopy_skips_unresolved_witness :
    (pagesB ≠ [] ∧ ValidPages regA pagesB) ∧
    (handleMerge regA pagesB = .ok (pagesB.filterMap (expectedPage regA)) ∧
     ∀ p ∈ pagesB, alookup regA p.sourceFileId = none → expectedPage regA p = none) :=
  ⟨⟨by decide, by unfold ValidPages; decide⟩,
   buildByCopy_skips_unresolved regA pagesB (by decide) (by unfold ValidPages; decide)⟩

/-- C7: within one `handleMerge` build, each distinct sourceId referenced
by the working set is parsed into a document handle at most once (the parse
trace is duplicate-free), only referenced sources are ever parsed, and
every referenced source that resolves is parsed (on first reference). -/
theorem buildByCopy_loads_once (registry : List (String × SourceDoc π))
    (pages : List PageInProcessing) (s₂ : MergeState π)
    (hrun : mergeRun registry pages = .ok s₂) :
    s₂.loads.Nodup ∧
    (∀ k ∈ s₂.loads, k ∈ pages.map PageInProcessing.sourceFileId ∧
      (alookup registry k).isSome) ∧
    (∀ p ∈ pages, (alookup registry p.sourceFileId).isSome → p.sourceFileId ∈ s₂.loads) := by
  have hinv : MergeInv registry (⟨[], [], []⟩ : MergeState π) := by
    refine ⟨List.nodup_nil, by simp, ?_⟩
    intro k
    simp [alookup]
  obtain ⟨⟨hnd, hre, _⟩, _, hgrow, hcover⟩ :=
    mergeLoop_loads registry pages ⟨[], [], []⟩ s₂ hinv hrun
  refine ⟨hnd, ?_, hcover⟩
  intro k hk
  refine ⟨(hgrow k hk).resolve_left ?_, hre k hk⟩
  simp

/-- Witness for C7: the interleaved working set parses each of its two
sources exactly once. -/
theorem buildByCopy_loads_once_witness :
    (["A", "B"] : List String).Nodup ∧
    (∀ k ∈ (["A", "B"] : List String), k ∈ pagesA.map PageInProcessing.sourceFileId ∧
      (alookup regA k).isSome) ∧
    (∀ p ∈ pagesA, (alookup regA p.sourceFileId).isSome →
      p.sourceFileId ∈ (["A", "B"] : List String)) :=
  buildByCopy_loads_once regA pagesA
    ⟨[("B", ⟨["b1"]⟩), ("A", ⟨["a1", "a2"]⟩)], ["a2", "b1", "a1"], ["A", "B"]⟩ rfl

/-! ## Rasterized rebuild: `handleCompress` in
src/src/components/PdfCompressor.tsx -/

/-- One source page as the rendering engine reports it: base viewport
dimensions at scale 1 (`page.getViewport` multiplies these by the requested
scale). -/
structure PdfPage where
  width : ℚ
  height : ℚ
  deriving Repr, DecidableEq

/-- An entry of the compression menu. -/
structure CompressionLevel where
  label : String
  quality : ℚ
  scale : ℚ
  deriving Repr, DecidableEq

/-- `COMPRESSION_LEVELS`: the fixed two-entry preset menu. -/
def COMPRESSION_LEVELS : List CompressionLevel :=
  [⟨"標準 (推奨)", 7 / 10, 9 / 10⟩, ⟨"高画質 (低圧縮)", 8 / 10, 1⟩]

/-- One page of the rebuilt output document: the dimensions passed to
`addPage([viewport.width, viewport.height])` and the geometry, quality and
codec of the image drawn onto it. -/
structure OutputPage where
  pageWidth : ℚ
  pageHeight : ℚ
  imgX : ℚ
  imgY : ℚ
  imgW : ℚ
  imgH : ℚ
  imgQuality : ℚ
  imgFormat : String
  deriving Repr, DecidableEq

/-- The selected input file: name, byte size, and its pages as the
rendering engine exposes them. -/
structure InputFile where
  name : String
  size : Nat
  pages : List PdfPage
  deriving Repr, DecidableEq

/-- Observable steps of one `handleCompress` call, in program order:
`status` is a fixed `setProgress` string, `progress i n` is the per-page
`setProgress` of the string built from `i` and `n`, and `render`, `encode`,
`append` are the render-to-canvas, JPEG encoding and page-append steps for
page `i`. -/
inductive CompressEvent where
  | status (msg : String)
  | progress (i n : Nat)
  | render (i : Nat)
  | encode (i : Nat)
  | append (i : Nat)
  deriving Repr, DecidableEq

/-- The per-page body of the compress loop: viewport at
`1.5 * settings.scale` times the page's base size, canvas render, JPEG
encoding at `settings.quality`, and an output page of exactly the viewport
size with the image drawn from the origin at full viewport size. -/
def compressPage (settings : CompressionLevel) (p : PdfPage) : OutputPage :=
  let vw := 3 / 2 * settings.scale * p.width
  let vh := 3 / 2 * settings.scale * p.height
  { pageWidth := vw, pageHeight := vh, imgX := 0, imgY := 0,
    imgW := vw, imgH := vh, imgQuality := settings.quality, imgFormat := "image/jpeg" }

/-- One iteration of the compress loop over the enumerated pages (`ip.1` is
the 0-based position): emit the page progress, then render, encode and
append. -/
def compressStep (settings : CompressionLevel) (n : Nat)
    (st : List OutputPage × List CompressEvent) (ip : Nat × PdfPage) :
    List OutputPage × List CompressEvent :=
  (st.1 ++ [compressPage settings ip.2],
   st.2 ++ [.progress (ip.1 + 1) n, .render (ip.1 + 1),
            .encode (ip.1 + 1), .append (ip.1 + 1)])

/-- The event trace of the compress loop for the pages `ps`, starting at
0-based position `k`, against a total of `n` pages. -/
def pageTrace (n : Nat) : Nat → List PdfPage → List CompressEvent
  | _, [] => []
  | k, _ :: rest =>
      [.progress (k + 1) n, .render (k + 1), .encode (k + 1), .append (k + 1)] ++
        pageTrace n (k + 1) rest

/-- `CompressResult`: the record `setResult` receives on success. -/
structure CompressResult where
  originalSize : Nat
  compressedSize : Nat
  reduction : ℚ
  fileName : String
  data : List OutputPage
  deriving Repr, DecidableEq

/-- Net effect of one `handleCompress` call on the component state: the
result on success, the error message on failure, and the ordered trace of
observable steps. -/
structure CompressOutcome where
  result : Option CompressResult
  error : Option String
  events : List CompressEvent
  deriving Repr, DecidableEq

/-- `handleCompress`.  `serializedSize` stands for the byte length of the
external `newPdfDoc.save()` serializer, an opaque parameter of the model
(serialization always succeeds here).  With no file selected the handler
returns at once: no result, no error, no events.  A level index outside the
menu cannot be selected in the UI; the model folds the TypeError it would
cause into the catch-all error outcome. -/
def handleCompress (file : Option InputFile) (compressionLevel : Nat)
    (serializedSize : List OutputPage → Nat) : CompressOutcome :=
  match file with
  | none => { result := none, error := none, events := [] }
  | some f =>
      match COMPRESSION_LEVELS[compressionLevel]? with
      | none =>
          { result := none,
            error := some "圧縮中にエラーが発生しました。ファイルが壊れているか、保護されている可能性があります。",
            events := [.status "準備中...", .status ""] }
      | some settings =>
          let n := f.pages.length
          let built := f.pages.enum.foldl (compressStep settings n) ([], [])
          let compressedSize := serializedSize built.1
          { result := some
              { originalSize := f.size,
                compressedSize := compressedSize,
                reduction := ((f.size : ℚ) - (compressedSize : ℚ)) / (f.size : ℚ) * 100,
                fileName := "compressed-" ++ f.name,
                data := built.1 },
            error := none,
            events := [.status "準備中..."] ++ built.2 ++
              [.status "仕上げ処理中...", .status ""] }

theorem compressLoop (settings : CompressionLevel) (n : Nat) (ps : List PdfPage) :
    ∀ (k : Nat) (acc : List OutputPage × List CompressEvent),
      (List.enumFrom k ps).foldl (compressStep settings n) acc =
        (acc.1 ++ ps.map (compressPage settings), acc.2 ++ pageTrace n k ps) := by
  induction ps with
  | nil => intro k acc; simp [pageTrace]
  | cons p rest ih =>
    intro k acc
    rw [List.enumFrom_cons, List.foldl_cons, ih (k + 1)]
    simp [compressStep, pageTrace, List.append_assoc]

/-- Full characterization of a `handleCompress` call on a selected file and
a valid level: output pages are the per-page rasterizations in order, the
result records the sizes and the reduction formula, and the event trace is
the setup status, the per-page trace, and the teardown statuses. -/
theorem handleCompress_char (f : InputFile) (lvl : Nat) (settings : CompressionLevel)
    (sz : List OutputPage → Nat) (hlvl : COMPRESSION_LEVELS[lvl]? = some settings) :
    handleCompress (some f) lvl sz =
      { result := some
          { originalSize := f.size,
            compressedSize := sz (f.pages.map (compressPage settings)),
            reduction := ((f.size : ℚ) -
                (sz (f.pages.map (compressPage settings)) : ℚ)) / (f.size : ℚ) * 100,
            fileName := "compressed-" ++ f.name,
            data := f.pages.map (compressPage settings) },
        error := none,
        events := [.status "準備中..."] ++ pageTrace f.pages.length 0 f.pages ++
          [.status "仕上げ処理中...", .status ""] } := by
  have hloop : f.pages.enum.foldl (compressStep settings f.pages.length) ([], []) =
      (f.pages.map (compressPage settings), pageTrace f.pages.length 0 f.pages) := by
    have h := compressLoop settings f.pages.length f.pages 0 ([], [])
    simpa using h
  simp only [handleCompress, hlvl, hloop]

/-- Recognizes the per-page progress emissions in an event trace. -/
def isProgress : CompressEvent → Bool
  | .progress _ _ => true
  | _ => false

theorem map_congr_mem {α β : Type} {f g : α → β} :
    ∀ l : List α, (∀ a ∈ l, f a = g a) → l.map f = l.map g := by
  intro l h
  induction l with
  | nil => rfl
  | cons a l ih =>
    rw [List.map_cons, List.map_cons, h a (List.mem_cons_self a l),
        ih (fun x hx => h x (List.mem_cons_of_mem _ hx))]

theorem pageTrace_filter (n : Nat) :
    ∀ (k : Nat) (ps : List PdfPage),
      (pageTrace n k ps).filter isProgress =
        (List.range ps.length).map (fun j => CompressEvent.progress (k + j + 1) n) := by
  intro k ps
  induction ps generalizing k with
  | nil => rfl
  | cons p rest ih =>
    rw [pageTrace, List.filter_append, List.length_cons, List.range_succ_eq_map,
        List.map_cons, List.map_map]
    rw [show ([CompressEvent.progress (k + 1) n, .render (k + 1), .encode (k + 1),
        .append (k + 1)] : List CompressEvent).filter isProgress =
        [CompressEvent.progress (k + 1) n] from rfl]
    rw [ih (k + 1)]
    show CompressEvent.progress (k + 1) n :: _ = CompressEvent.progress (k + 0 + 1) n :: _
    congr 1
    apply map_congr_mem
    intro j _
    show CompressEvent.progress (k + 1 + j + 1) n = CompressEvent.progress (k + (j + 1) + 1) n
    congr 1
    omega

/-- C2: for every page of a `handleCompress` build with a valid profile,
the output document holds one page per input page, sized exactly to the
render viewport of `1.5 × profile.scale` times the page's base dimensions,
carrying a lossy JPEG at the profile's quality drawn at the origin over the
full page width and height. -/
theorem buildByRasterize_viewport (f : InputFile) (lvl : Nat)
    (settings : CompressionLevel) (sz : List OutputPage → Nat)
    (hlvl : COMPRESSION_LEVELS[lvl]? = some settings) :
    ∃ r, (handleCompress (some f) lvl sz).result = some r ∧
      r.data.length = f.pages.length ∧
      ∀ i : Nat, ∀ p : PdfPage, f.pages[i]? = some p →
        ∃ op, r.data[i]? = some op ∧
          op.pageWidth = 3 / 2 * settings.scale * p.width ∧
          op.pageHeight = 3 / 2 * settings.scale * p.height ∧
          op.imgQuality = settings.quality ∧
          op.imgFormat = "image/jpeg" ∧
          op.imgX = 0 ∧ op.imgY = 0 ∧
          op.imgW = op.pageWidth ∧ op.imgH = op.pageHeight := by
  rw [handleCompress_char f lvl settings sz hlvl]
  refine ⟨_, rfl, by simp, ?_⟩
  intro i p hp
  refine ⟨compressPage settings p, ?_, rfl, rfl, rfl, rfl, rfl, rfl, rfl, rfl⟩
  show (f.pages.map (compressPage settings))[i]? = some (compressPage settings p)
  rw [List.getElem?_map, hp]
  rfl

/-- A one-page input file used to instantiate the compress theorems. -/
def fileA : InputFile := ⟨"a.pdf", 1000, [⟨10, 20⟩]⟩

/-- Witness for C2 on the one-page file at the standard level. -/
theorem buildByRasterize_viewport_witness :
    COMPRESSION_LEVELS[0]? = some ⟨"標準 (推奨)", 7 / 10, 9 / 10⟩ ∧
    ∃ r, (handleCompress (some fileA) 0 (fun _ => 1)).result = some r ∧
      r.data.length = fileA.pages.length ∧
      ∀ i : Nat, ∀ p : PdfPage, fileA.pages[i]? = some p →
        ∃ op, r.data[i]? = some op ∧
          op.pageWidth = 3 / 2 * (9 / 10 : ℚ) * p.width ∧
          op.pageHeight = 3 / 2 * (9 / 10 : ℚ) * p.height ∧
          op.imgQuality = (7 / 10 : ℚ) ∧
          op.imgFormat = "image/jpeg" ∧
          op.imgX = 0 ∧ op.imgY = 0 ∧
          op.imgW = op.pageWidth ∧ op.imgH = op.pageHeight :=
  ⟨rfl, buildByRasterize_viewport fileA 0 ⟨"標準 (推奨)", 7 / 10, 9 / 10⟩ (fun _ => 1) rfl⟩

/-- The property C6 asserts of the trace: every per-page progress emission
comes after the completion (the append step) of its page. -/
def progressAfterCompletion (tr : List CompressEvent) : Prop :=
  ∀ i n b : Nat, tr[b]? = some (.progress i n) →
    ∃ a : Nat, a < b ∧ tr[a]? = some (.append i)

/-- C6 counterexample: on a one-page file, the single progress emission
happens before the page's render-encode-append steps, not after its
completion. -/
theorem progress_emission_counterexample :
    ¬ progressAfterCompletion (handleCompress (some fileA) 0 (fun _ => 1)).events := by
  intro h
  have hev : (handleCompress (some fileA) 0 (fun _ => 1)).events =
      [.status "準備中...", .progress 1 1, .render 1, .encode 1, .append 1,
       .status "仕上げ処理中...", .status ""] := rfl
  obtain ⟨a, ha, hval⟩ := h 1 1 1 (by rw [hev]; rfl)
  have ha0 : a = 0 := Nat.lt_one_iff.mp ha
  subst ha0
  rw [hev] at hval
  exact absurd hval (by decide)

/-- C6 amended: pages are processed strictly sequentially and the progress
report for page i is emitted immediately before page i's
render-encode-append step (announcing it, not following it); the sequence
of per-page progress values is exactly 1 of N, 2 of N, ..., N of N in
order. -/
theorem buildByRasterize_progress (f : InputFile) (lvl : Nat)
    (settings : CompressionLevel) (sz : List OutputPage → Nat)
    (hlvl : COMPRESSION_LEVELS[lvl]? = some settings) :
    (handleCompress (some f) lvl sz).events =
      [.status "準備中..."] ++ pageTrace f.pages.length 0 f.pages ++
        [.status "仕上げ処理中...", .status ""] ∧
    (handleCompress (some f) lvl sz).events.filter isProgress =
      (List.range f.pages.length).map
        (fun j => CompressEvent.progress (j + 1) f.pages.length) := by
  rw [handleCompress_char f lvl settings sz hlvl]
  refine ⟨rfl, ?_⟩
  show ([CompressEvent.status "準備中..."] ++ pageTrace f.pages.length 0 f.pages ++
      [CompressEvent.status "仕上げ処理中...", CompressEvent.status ""]).filter isProgress = _
  rw [List.filter_append, List.filter_append, pageTrace_filter]
  simp [isProgress]

/-- Witness for the amended C6 on the one-page file. -/
theorem buildByRasterize_progress_witness :
    COMPRESSION_LEVELS[0]? = some ⟨"標準 (推奨)", 7 / 10, 9 / 10⟩ ∧
    ((handleCompress (some fileA) 0 (fun _ => 1)).events =
      [.status "準備中..."] ++ pageTrace fileA.pages.length 0 fileA.pages ++
        [.status "仕上げ処理中...", .status ""] ∧
     (handleCompress (some fileA) 0 (fun _ => 1)).events.filter isProgress =
      (List.range fileA.pages.length).map
        (fun j => CompressEvent.progress (j + 1) fileA.pages.length)) :=
  ⟨rfl, buildByRasterize_progress fileA 0 ⟨"標準 (推奨)", 7 / 10, 9 / 10⟩ (fun _ => 1) rfl⟩

/-- A zero-page input file: the empty working set on the compress path. -/
def emptyFile : InputFile := ⟨"e.pdf", 10, []⟩

/-- C5 counterexample: the rasterize build does not fail on empty input.
On a zero-page file it reports success (a result, no error), and with no
file selected it silently returns with neither result nor error. -/
theorem emptyInput_counterexample :
    (handleCompress (some emptyFile) 0 (fun _ => 5)).error = none ∧
    (handleCompress (some emptyFile) 0 (fun _ => 5)).result.isSome = true ∧
    handleCompress none 0 (fun _ => 5) =
      { result := none, error := none, events := [] } :=
  ⟨rfl, rfl, rfl⟩

/-- C5 amended: on an empty working set the structural-copy builds
(`handleMerge`, `handleCreatePdf`) fail with the empty-input error and
produce no output, while the rasterize build does not raise any
empty-input error: with no file selected it returns silently with no
output, no error and no events. -/
theorem emptyInput_spec (registry : List (String × SourceDoc π)) (source : SourceDoc π)
    (lvl : Nat) (sz : List OutputPage → Nat) :
    handleMerge registry [] = .error .emptyInput ∧
    handleCreatePdf source ([] : List PageInProcessing) = .error .emptyInput ∧
    handleCompress none lvl sz = { result := none, error := none, events := [] } :=
  ⟨rfl, rfl, rfl⟩

/-- Witness for the amended C5 at concrete inputs. -/
theorem emptyInput_spec_witness :
    handleMerge regA [] = .error .emptyInput ∧
    handleCreatePdf srcA ([] : List PageInProcessing) = .error .emptyInput ∧
    handleCompress none 0 (fun _ => 0) = { result := none, error := none, events := [] } :=
  emptyInput_spec regA srcA 0 (fun _ => 0)

/-- C10: a compression run that serializes successfully always reports
success (a result, no error) whatever the output size; the reported
reduction is ((originalSize - compressedSize) / originalSize) × 100, and it
is negative whenever the output is larger than the input (no special
handling of that case). -/
theorem compress_reports_reduction (f : InputFile) (lvl : Nat)
    (settings : CompressionLevel) (sz : List OutputPage → Nat)
    (hlvl : COMPRESSION_LEVELS[lvl]? = some settings) (hpos : 0 < f.size) :
    ∃ r, (handleCompress (some f) lvl sz).result = some r ∧
      (handleCompress (some f) lvl sz).error = none ∧
      r.originalSize = f.size ∧
      r.compressedSize = sz (f.pages.map (compressPage settings)) ∧
      r.reduction = ((f.size : ℚ) - (r.compressedSize : ℚ)) / (f.size : ℚ) * 100 ∧
      (f.size < r.compressedSize → r.reduction < 0) := by
  rw [handleCompress_char f lvl settings sz hlvl]
  refine ⟨_, rfl, rfl, rfl, rfl, rfl, ?_⟩
  intro hlt
  have hS : (0 : ℚ) < (f.size : ℚ) := by exact_mod_cast hpos
  have hC : (f.size : ℚ) < (sz (f.pages.map (compressPage settings)) : ℚ) := by
    exact_mod_cast hlt
  have hneg : (f.size : ℚ) - (sz (f.pages.map (compressPage settings)) : ℚ) < 0 := by
    linarith
  exact mul_neg_of_neg_of_pos (div_neg_of_neg_of_pos hneg hS) (by norm_num)

/-- A small file compressed by a serializer that inflates it. -/
def bigFile : InputFile := ⟨"b.pdf", 4, [⟨1, 1⟩]⟩

/-- Witness for C10: an output larger than the input still reports success,
with a negative reduction. -/
theorem compress_reports_reduction_witness :
    (COMPRESSION_LEVELS[0]? = some ⟨"標準 (推奨)", 7 / 10, 9 / 10⟩ ∧ 0 < bigFile.size) ∧
    (∃ r, (handleCompress (some bigFile) 0 (fun _ => 8)).result = some r ∧
      (handleCompress (some bigFile) 0 (fun _ => 8)).error = none ∧
      r.originalSize = bigFile.size ∧
      r.compressedSize = (fun _ => 8) (bigFile.pages.map
        (compressPage ⟨"標準 (推奨)", 7 / 10, 9 / 10⟩)) ∧
      r.reduction = ((bigFile.size : ℚ) - (r.compressedSize : ℚ)) / (bigFile.size : ℚ) * 100 ∧
      (bigFile.size < r.compressedSize → r.reduction < 0)) :=
  ⟨⟨rfl, by decide⟩,
   compress_reports_reduction bigFile 0 ⟨"標準 (推奨)", 7 / 10, 9 / 10⟩ (fun _ => 8)
     rfl (by decide)⟩

/-! ## Batch loading: `handleFilesAccepted` in the merger
(src/unnamed/part_000) -/

/-- One file of an accepted batch: its name and the outcome of
`PDFDocument.load` on its bytes (`some pageCount` on success, `none` when
the parse throws and the file is reported and skipped). -/
structure AcceptedFile where
  name : String
  parse : Option Nat
  deriving Repr, DecidableEq

/-- The PageRefs `handleFilesAccepted` pushes for one successfully parsed
file with id `fid`: one per page, ids derived from the file id and the
0-based page index, original indices 1..pageCount. -/
def pageRefsOf (fid : String) (pageCount : Nat) : List PageInProcessing :=
  (List.range pageCount).map (fun i =>
    { id := fid ++ "-page-" ++ toString i, sourceFileId := fid, originalPageIndex := i + 1 })

/-- The `LoadedPdfFile` entry pushed for one parsed batch file. -/
def loadedFileOf (mkId : AcceptedFile → String) (f : AcceptedFile) (pageCount : Nat) :
    LoadedPdfFile :=
  { id := mkId f, name := f.name, pageCount := pageCount }

/-- `handleFilesAccepted`: snapshot the names of the already-loaded files,
drop batch files whose name is in that snapshot, then (unless nothing is
left) fold over the remaining files in order, appending a `LoadedPdfFile`
and its PageRefs for each file that parses, skipping each file that does
not.  `mkId` stands for the timestamped file id (name + load time). -/
def handleFilesAccepted (loadedFiles : List LoadedPdfFile) (pages : List PageInProcessing)
    (acceptedFiles : List AcceptedFile) (mkId : AcceptedFile → String) :
    List LoadedPdfFile × List PageInProcessing :=
  let currentFileNames := loadedFiles.map LoadedPdfFile.name
  let newFiles := acceptedFiles.filter (fun f => !(currentFileNames.contains f.name))
  if newFiles.length = 0 then (loadedFiles, pages)
  else
    newFiles.foldl
      (fun st file =>
        match file.parse with
        | some pageCount =>
            (st.1 ++ [loadedFileOf mkId file pageCount],
             st.2 ++ pageRefsOf (mkId file) pageCount)
        | none => st)
      (loadedFiles, pages)

/-- C9: the name-deduplication snapshot is taken once, before the batch
loop, so a batch holding two files of the same (previously unseen) name
loads both: both files are appended to the registry and both contribute
their PageRefs to the working set. -/
theorem dedup_snapshot_spec (loadedFiles : List LoadedPdfFile)
    (pages : List PageInProcessing) (f₁ f₂ : AcceptedFile)
    (mkId : AcceptedFile → String) (n₁ n₂ : Nat)
    (hname : f₁.name = f₂.name)
    (hfresh : f₁.name ∉ loadedFiles.map LoadedPdfFile.name)
    (hp₁ : f₁.parse = some n₁) (hp₂ : f₂.parse = some n₂) :
    handleFilesAccepted loadedFiles pages [f₁, f₂] mkId =
      (loadedFiles ++ [loadedFileOf mkId f₁ n₁, loadedFileOf mkId f₂ n₂],
       pages ++ pageRefsOf (mkId f₁) n₁ ++ pageRefsOf (mkId f₂) n₂) := by
  have h₁m : ∀ x ∈ loadedFiles, ¬ x.name = f₁.name := by
    intro x hx hx1
    exact hfresh (List.mem_map.mpr ⟨x, hx, hx1⟩)
  have h₂m : ∀ x ∈ loadedFiles, ¬ x.name = f₂.name := by
    intro x hx hx2
    refine hfresh (List.mem_map.mpr ⟨x, hx, ?_⟩)
    rw [hname]
    exact hx2
  have hfilter : [f₁, f₂].filter
      (fun f => !((loadedFiles.map LoadedPdfFile.name).contains f.name)) = [f₁, f₂] := by
    simp [List.filter_cons]
    rw [if_pos h₁m, if_pos h₂m]
  simp only [handleFilesAccepted, hfilter]
  rw [if_neg (by simp)]
  rw [List.foldl_cons, List.foldl_cons, List.foldl_nil]
  simp [hp₁, hp₂, List.append_assoc]

/-- Witness for C9: a batch of two files both named dup.pdf, loaded into an
empty session. -/
theorem dedup_snapshot_spec_witness :
    ((⟨"dup.pdf", some 1⟩ : AcceptedFile).name = (⟨"dup.pdf", some 2⟩ : AcceptedFile).name ∧
     (⟨"dup.pdf", some 1⟩ : AcceptedFile).name ∉
       ([] : List LoadedPdfFile).map LoadedPdfFile.name ∧
     (⟨"dup.pdf", some 1⟩ : AcceptedFile).parse = some 1 ∧
     (⟨"dup.pdf", some 2⟩ : AcceptedFile).parse = some 2) ∧
    handleFilesAccepted [] [] [⟨"dup.pdf", some 1⟩, ⟨"dup.pdf", some 2⟩]
        (fun f => f.name) =
      ([] ++ [loadedFileOf (fun f => f.name) ⟨"dup.pdf", some 1⟩ 1,
              loadedFileOf (fun f => f.name) ⟨"dup.pdf", some 2⟩ 2],
       [] ++ pageRefsOf "dup.pdf" 1 ++ pageRefsOf "dup.pdf" 2) :=
  ⟨⟨rfl, by decide, rfl, rfl⟩,
   dedup_snapshot_spec [] [] ⟨"dup.pdf", some 1⟩ ⟨"dup.pdf", some 2⟩
     (fun f => f.name) 1 2 rfl (by decide) rfl rfl⟩

end WeLovePDF
